import Mathlib

/-!
Verification of the aesutil.js envelope codec, key/IV resolver and AEAD
facade (src/src/aesutil.ts, src/unnamed/part_003) as a shallow embedding.

JavaScript strings are modelled as lists of UTF-16 code units (natural
numbers); Node Buffers are modelled as lists of byte values (naturals,
meaningful modulo 256).  The platform AEAD primitive (aes-256-gcm via
node:crypto) is an external collaborator: it is modelled as a
counter-mode keystream XOR plus a tag function over
(key, iv, aad, ciphertext), with the keystream and tag functions left as
parameters (structure AeadPrim) so that theorems hold for any
instantiation; a concrete executable instance aeadModel is provided for
witnesses and counterexamples.  Node randomness (crypto.randomBytes) is
modelled as a deterministic function of an entropy seed threaded through
the calls that consume it.
-/

set_option maxRecDepth 10000

deriving instance DecidableEq for Except

/-- A JavaScript string: its sequence of UTF-16 code units. -/
abbrev JSString := List Nat

/-- Error kinds thrown by the module (spec section 7).  The code throws
plain Error values; each constructor names the distinct failure message /
condition in the source.  typeErrorUndefined models the TypeError Node
raises when Buffer.from receives undefined (a missing destructured split
field); authenticationFailure models the OpenSSL
unable-to-authenticate-data error surfaced by decipher.final. -/
inductive AesError where
  | missingKey
  | invalidKeyEncoding
  | invalidKeyLength
  | invalidIvEncoding
  | invalidIvLength
  | typeErrorUndefined
  | authenticationFailure
deriving DecidableEq, Repr

/-- The Base64 alphabet in table order, as code units:
A-Z, a-z, 0-9, plus, slash. -/
def b64Table : List Nat :=
  (List.range 26).map (· + 65) ++ (List.range 26).map (· + 97) ++
    (List.range 10).map (· + 48) ++ [43, 47]

/-- Character for a sextet value (Buffer.toString base64). -/
def b64EncChar (v : Nat) : Nat := b64Table.getD (v % 64) 65

/-- Value of a character for Node's base64 decoder table: the code unit
is truncated to its low byte (the decoder indexes a 256-entry table
through a uint8 cast), the URL-safe digits minus and underscore are
accepted alongside plus and slash, and every other character maps to
none. -/
def b64CharVal (c0 : Nat) : Option Nat :=
  let c := c0 % 256
  if 65 ≤ c ∧ c ≤ 90 then some (c - 65)
  else if 97 ≤ c ∧ c ≤ 122 then some (c - 97 + 26)
  else if 48 ≤ c ∧ c ≤ 57 then some (c - 48 + 52)
  else if c = 43 ∨ c = 45 then some 62
  else if c = 47 ∨ c = 95 then some 63
  else none

/-- Buffer.prototype.toString with encoding base64: bytes to padded
Base64 text, three input bytes per four output characters (61 is the
padding character). -/
def b64encode : List Nat → List Nat
  | [] => []
  | [b1] => [b64EncChar (b1 / 4), b64EncChar (b1 % 4 * 16), 61, 61]
  | [b1, b2] =>
    [b64EncChar (b1 / 4), b64EncChar (b1 % 4 * 16 + b2 / 16),
      b64EncChar (b2 % 16 * 4), 61]
  | b1 :: b2 :: b3 :: rest =>
    b64EncChar (b1 / 4) :: b64EncChar (b1 % 4 * 16 + b2 / 16) ::
      b64EncChar (b2 % 16 * 4 + b3 / 64) :: b64EncChar (b3 % 64) ::
        b64encode rest

/-- Reassemble bytes from a stream of sextet values (final group of two
or three sextets yields one or two bytes; a dangling sextet is dropped,
as Node does). -/
def decodeQuads : List Nat → List Nat
  | s1 :: s2 :: s3 :: s4 :: rest =>
    (s1 * 4 + s2 / 16) :: (s2 % 16 * 16 + s3 / 4) :: (s3 % 4 * 64 + s4) ::
      decodeQuads rest
  | [s1, s2] => [s1 * 4 + s2 / 16]
  | [s1, s2, s3] => [s1 * 4 + s2 / 16, s2 % 16 * 16 + s3 / 4]
  | _ => []

/-- Buffer.from(s, base64): Node's decoder reads characters truncated to
their low byte, stops for good at the first padding character (low byte
61), skips any other character outside its table, and packs the sextets
collected so far. -/
def b64decode (s : JSString) : List Nat :=
  decodeQuads ((s.takeWhile fun c => c % 256 != 61).filterMap b64CharVal)

/-- Hex digit value (0-9, a-f, A-F; Node parses hex case-insensitively). -/
def hexDigitVal (c : Nat) : Option Nat :=
  if 48 ≤ c ∧ c ≤ 57 then some (c - 48)
  else if 97 ≤ c ∧ c ≤ 102 then some (c - 97 + 10)
  else if 65 ≤ c ∧ c ≤ 70 then some (c - 65 + 10)
  else none

/-- Buffer.from(s, hex): consume pairs of hex digits, stopping at the
first invalid or incomplete pair (Node behaviour). -/
def hexStrToBytes : JSString → List Nat
  | c1 :: c2 :: rest =>
    match hexDigitVal c1, hexDigitVal c2 with
    | some h, some l => (h * 16 + l) :: hexStrToBytes rest
    | _, _ => []
  | _ => []

/-- Lowercase hex digit character for a nibble. -/
def hexDigitChr (v : Nat) : Nat := if v < 10 then 48 + v else 87 + v

/-- Buffer.prototype.toString with encoding hex: lowercase digits. -/
def bytesToHexStr (b : List Nat) : JSString :=
  (b.map fun x => [hexDigitChr (x % 256 / 16), hexDigitChr (x % 256 % 16)]).flatten

/-- High (leading) UTF-16 surrogate code unit. -/
def isHighSurrogate (c : Nat) : Bool := 0xD800 ≤ c && c < 0xDC00

/-- Low (trailing) UTF-16 surrogate code unit. -/
def isLowSurrogate (c : Nat) : Bool := 0xDC00 ≤ c && c < 0xE000

/-- UTF-8 bytes of the replacement character U+FFFD. -/
def replacementBytes : List Nat := [0xEF, 0xBF, 0xBD]

/-- UTF-8 encoding of one non-surrogate BMP scalar. -/
def utf8EncOne (c : Nat) : List Nat :=
  if c < 0x80 then [c]
  else if c < 0x800 then [0xC0 + c / 64, 0x80 + c % 64]
  else [0xE0 + c / 4096, 0x80 + c / 64 % 64, 0x80 + c % 64]

/-- Buffer.from(s) / Buffer.from(s, utf8): UTF-16 code units to UTF-8
bytes.  Well-matched surrogate pairs become one four-byte sequence; a
lone surrogate becomes the replacement character, as V8 does. -/
def utf8Enc : JSString → List Nat
  | [] => []
  | [c] =>
    if isHighSurrogate c || isLowSurrogate c then replacementBytes
    else utf8EncOne (c % 0x10000)
  | c :: d :: rest =>
    if isHighSurrogate c then
      if isLowSurrogate d then
        let cp := 0x10000 + (c - 0xD800) * 0x400 + (d - 0xDC00)
        (0xF0 + cp / 0x40000) :: (0x80 + cp / 4096 % 64) ::
          (0x80 + cp / 64 % 64) :: (0x80 + cp % 64) :: utf8Enc rest
      else replacementBytes ++ utf8Enc (d :: rest)
    else if isLowSurrogate c then replacementBytes ++ utf8Enc (d :: rest)
    else utf8EncOne (c % 0x10000) ++ utf8Enc (d :: rest)

/-- UTF-8 continuation byte. -/
def isCont (b : Nat) : Bool := 0x80 ≤ b && b < 0xC0

/-- One step of the UTF-8 decoder: given the lead byte and the rest of
the input, the code units emitted and the input remaining. -/
def utf8DecStep (b : Nat) (rest : List Nat) : List Nat × List Nat :=
  if b < 0x80 then ([b], rest)
  else if b < 0xC2 then ([0xFFFD], rest)
  else if b < 0xE0 then
    match rest with
    | b2 :: rest2 =>
      if isCont b2 then ([(b - 0xC0) * 64 + (b2 - 0x80)], rest2)
      else ([0xFFFD], rest)
    | [] => ([0xFFFD], [])
  else if b < 0xF0 then
    match rest with
    | b2 :: b3 :: rest2 =>
      if isCont b2 && isCont b3 &&
          (b ≠ 0xE0 || 0xA0 ≤ b2) && (b ≠ 0xED || b2 < 0xA0) then
        ([(b - 0xE0) * 4096 + (b2 - 0x80) * 64 + (b3 - 0x80)], rest2)
      else ([0xFFFD], rest)
    | _ => ([0xFFFD], rest)
  else if b < 0xF5 then
    match rest with
    | b2 :: b3 :: b4 :: rest2 =>
      if isCont b2 && isCont b3 && isCont b4 &&
          (b ≠ 0xF0 || 0x90 ≤ b2) && (b ≠ 0xF4 || b2 < 0x90) then
        let cp := (b - 0xF0) * 0x40000 + (b2 - 0x80) * 4096 +
          (b3 - 0x80) * 64 + (b4 - 0x80)
        ([0xD800 + (cp - 0x10000) / 0x400, 0xDC00 + (cp - 0x10000) % 0x400],
          rest2)
      else ([0xFFFD], rest)
    | _ => ([0xFFFD], rest)
  else ([0xFFFD], rest)

/-- Iterate the UTF-8 decoder steps.  Each step consumes at least the
lead byte, so the input length is enough fuel; fuel keeps the recursion
structural (and so evaluable inside the kernel). -/
def utf8DecGo : Nat → List Nat → JSString
  | 0, _ => []
  | _, [] => []
  | fuel + 1, b :: rest => (utf8DecStep b rest).1 ++ utf8DecGo fuel (utf8DecStep b rest).2

/-- Buffer.prototype.toString with encoding utf8: UTF-8 bytes back to
UTF-16 code units, invalid sequences replaced by U+FFFD (WHATWG-style:
emit the replacement and resume at the offending byte). -/
def utf8Dec (bytes : List Nat) : JSString := utf8DecGo bytes.length bytes

/-- The plaintext text encodings the facade supports (BufferEncoding
values used by the module: utf8 default; hex, latin1/binary, ascii per
the README and tests). -/
inductive BufferEncoding where
  | utf8
  | hex
  | latin1
  | ascii
deriving DecidableEq, Repr

/-- Buffer.from(s, enc): interpret a string as bytes under an encoding
(cipher.update input side). -/
def encodeStr : BufferEncoding → JSString → List Nat
  | .utf8, s => utf8Enc s
  | .hex, s => hexStrToBytes s
  | .latin1, s => s.map (· % 256)
  | .ascii, s => s.map (· % 256)

/-- Buffer.prototype.toString(enc): render bytes as a string under an
encoding (decipher output side).  The ascii decoder clears the high bit
of each byte, as Node documents. -/
def decodeStr : BufferEncoding → List Nat → JSString
  | .utf8, b => utf8Dec b
  | .hex, b => bytesToHexStr b
  | .latin1, b => b.map (· % 256)
  | .ascii, b => b.map (· % 128)

/-- String.prototype.split with separator a single period (code 46). -/
def splitOnDot : JSString → List JSString
  | [] => [[]]
  | c :: rest =>
    if c = 46 then [] :: splitOnDot rest
    else
      match splitOnDot rest with
      | [] => [[c]]
      | f :: fs => (c :: f) :: fs

/-- The external AEAD collaborator (spec section 6): aes-256-gcm is
counter-mode encryption (a keystream XORed onto the data byte by byte)
together with an authentication tag computed over key, IV, associated
data and ciphertext.  The keystream and the tag function are the
platform cipher's internals and are out of scope, so they are
parameters; theorems quantify over them. -/
structure AeadPrim where
  ks : List Nat → List Nat → Nat → Nat
  tagOf : List Nat → List Nat → List Nat → List Nat → List Nat

/-- Counter-mode pass of cipher.update / decipher.update: XOR each data
byte with the keystream byte at its index (taken modulo 256).  XOR makes
the same pass its own inverse, as in GCM. -/
def ctrCipher (prim : AeadPrim) (key iv : List Nat) : Nat → List Nat → List Nat
  | _, [] => []
  | i, b :: bs => (b ^^^ prim.ks key iv i % 256) :: ctrCipher prim key iv (i + 1) bs

/-- A concrete executable instance of the collaborator, used to evaluate
the model on explicit inputs. -/
def aeadModel : AeadPrim where
  ks := fun key iv i => key.sum * 31 + iv.sum * 17 + i * 131 + 7
  tagOf := fun key iv aad ct =>
    (List.range 16).map fun i =>
      (key.sum * 3 + iv.sum * 5 + aad.sum * 7 + ct.sum * 11 +
        aad.length * 13 + ct.length * 19 + i * 23 + 1) % 256

/-- crypto.randomBytes(n), modelled as a deterministic function of an
entropy seed: n bytes drawn from the seed. -/
def randomBytes (seed n : Nat) : List Nat :=
  (List.range n).map fun i => seed / 256 ^ i % 256

/-- IV_BYTE_LEN: 12-byte IV per NIST 800-38D. -/
def IV_BYTE_LEN : Nat := 12

/-- KEY_BYTE_LEN: a 256-bit key is 32 bytes. -/
def KEY_BYTE_LEN : Nat := 32

/-- A candidate key or IV as the JS code receives it: either a string or
a Buffer (byte list). -/
inductive BufOrStr where
  | str (s : JSString)
  | buf (b : List Nat)
deriving DecidableEq, Repr

/-- JS truthiness of a key/IV candidate: the empty string is falsy;
every Buffer object (even empty) is truthy. -/
def BufOrStr.truthy : BufOrStr → Bool
  | .str s => !s.isEmpty
  | .buf _ => true

/-- JS truthiness of an optional candidate (undefined is falsy). -/
def optTruthy : Option BufOrStr → Bool
  | none => false
  | some k => k.truthy

/-- The test of base64RegEx, the anchored regex over one or more
characters of A-Za-z0-9+/=. -/
def isBase64Chr (c : Nat) : Bool :=
  (65 ≤ c && c ≤ 90) || (97 ≤ c && c ≤ 122) || (48 ≤ c && c ≤ 57) ||
    c == 43 || c == 47 || c == 61

/-- base64RegEx.test(s): the string is nonempty and every character is
in the accepted alphabet. -/
def base64RegExTest (s : JSString) : Bool := !s.isEmpty && s.all isBase64Chr

/-- The expression providedKey || AESUTIL_JS_AES_ENCRYPTION_KEY: JS
short-circuit or on the candidate (first operand if truthy, else the
second). -/
def jsOrCandidate (a : Option BufOrStr) (b : Option BufOrStr) : Option BufOrStr :=
  match a with
  | some x => if x.truthy then some x else b
  | none => b

/-- getCipherKey (src/src/aesutil.ts lines 11-36).  envKey is the value
of the AESUTIL_JS_AES_ENCRYPTION_KEY environment variable (a string when
set).  Resolves the candidate by truthiness, rejects non-Base64 strings,
decodes, and demands exactly KEY_BYTE_LEN bytes. -/
def getCipherKey (envKey : Option JSString) (providedKey : Option BufOrStr) :
    Except AesError (List Nat) :=
  let keyCandidate := jsOrCandidate providedKey (envKey.map .str)
  match keyCandidate with
  | none => .error .missingKey
  | some cand =>
    if !cand.truthy then .error .missingKey
    else
      match cand with
      | .str s =>
        if !base64RegExTest s then .error .invalidKeyEncoding
        else
          let keyBytes := b64decode s
          if keyBytes.length ≠ KEY_BYTE_LEN then .error .invalidKeyLength
          else .ok keyBytes
      | .buf b =>
        if b.length ≠ KEY_BYTE_LEN then .error .invalidKeyLength
        else .ok b

/-- getIv (src/unnamed/part_003 lines 38-49): validate and decode a
provided IV candidate, or draw IV_BYTE_LEN random bytes when no
candidate is given.  A string candidate must pass base64RegEx before
decoding; a resolved candidate buffer must be exactly IV_BYTE_LEN
bytes. -/
def getIv (seed : Nat) (providedIv : Option BufOrStr) : Except AesError (List Nat) :=
  let decoded : Except AesError (Option (List Nat)) :=
    match providedIv with
    | some (.str s) =>
      if !base64RegExTest s then .error .invalidIvEncoding
      else .ok (some (b64decode s))
    | some (.buf b) => .ok (some b)
    | none => .ok none
  match decoded with
  | .error e => .error e
  | .ok (some b) =>
    if b.length ≠ IV_BYTE_LEN then .error .invalidIvLength else .ok b
  | .ok none => .ok (randomBytes seed IV_BYTE_LEN)

/-- ICiphertextParts: the triple shared between encode and decode. -/
structure CiphertextParts where
  ciphertext : List Nat
  iv : List Nat
  authTag : List Nat
deriving DecidableEq, Repr

/-- An AesUtil instance after construction: the resolved key and the two
mode fields with their declared defaults. -/
structure AesUtil where
  key : List Nat
  binaryMode : Bool := false
  plaintextEncoding : BufferEncoding := .utf8
deriving DecidableEq, Repr

/-- AesUtil.getIv(): IV_BYTE_LEN fresh random bytes. -/
def AesUtil.getIv (seed : Nat) : List Nat := randomBytes seed IV_BYTE_LEN

/-- The conditional cipher.setAAD(Buffer.from(associatedData)) guarded by
if (associatedData): an absent or empty (falsy) string leaves the AAD
empty; a nonempty string contributes its UTF-8 bytes. -/
def aadBytes : Option JSString → List Nat
  | none => []
  | some s => if s.isEmpty then [] else utf8Enc s

/-- AesUtil.encodeOutput (src/src/aesutil.ts lines 110-116): the ordered
parts [iv, authTag, ciphertext] either concatenated raw and read back as
a latin1 string (binary mode) or independently Base64-encoded and joined
with a period (code 46). -/
def AesUtil.encodeOutput (u : AesUtil) (parts : CiphertextParts) : JSString :=
  let orderedParts := [parts.iv, parts.authTag, parts.ciphertext]
  if u.binaryMode then orderedParts.flatten
  else List.intercalate [46] (orderedParts.map b64encode)

/-- AesUtil.decodeInput (src/src/aesutil.ts lines 118-141).  Binary mode
reads the string as latin1 bytes and slices subarray(0,12),
subarray(12,28), subarray(28) with JS clamping.  Text mode splits on the
period and destructures the first three fields; converting a missing
(undefined) field with Buffer.from throws a TypeError. -/
def AesUtil.decodeInput (u : AesUtil) (encrypted : JSString) :
    Except AesError CiphertextParts :=
  if u.binaryMode then
    let encryptedBytes := encrypted.map (· % 256)
    .ok {
      iv := encryptedBytes.take IV_BYTE_LEN
      authTag := (encryptedBytes.drop IV_BYTE_LEN).take 16
      ciphertext := encryptedBytes.drop (IV_BYTE_LEN + 16) }
  else
    let fields := splitOnDot encrypted
    match fields[0]?, fields[1]?, fields[2]? with
    | some ivString, some authTagString, some ciphertextString =>
      .ok {
        iv := b64decode ivString
        authTag := b64decode authTagString
        ciphertext := b64decode ciphertextString }
    | _, _, _ => .error .typeErrorUndefined

/-- AesUtil.encrypt (src/src/aesutil.ts lines 72-84): draw a fresh IV,
interpret the plaintext under the instance encoding, run the cipher,
bind the (truthy) associated data into the tag, and encode the parts. -/
def AesUtil.encrypt (prim : AeadPrim) (seed : Nat) (u : AesUtil)
    (plaintext : JSString) (associatedData : Option JSString) : JSString :=
  let iv := AesUtil.getIv seed
  let ciphertext := ctrCipher prim u.key iv 0 (encodeStr u.plaintextEncoding plaintext)
  let authTag := prim.tagOf u.key iv (aadBytes associatedData) ciphertext
  u.encodeOutput { ciphertext := ciphertext, iv := iv, authTag := authTag }

/-- AesUtil.decrypt (src/src/aesutil.ts lines 96-108): decode the
envelope, recompute the tag over the received ciphertext with the
caller's (truthy) associated data, fail on mismatch, else invert the
cipher and render under the instance encoding. -/
def AesUtil.decrypt (prim : AeadPrim) (u : AesUtil) (encrypted : JSString)
    (associatedData : Option JSString) : Except AesError JSString :=
  match u.decodeInput encrypted with
  | .error e => .error e
  | .ok parts =>
    if prim.tagOf u.key parts.iv (aadBytes associatedData) parts.ciphertext =
        parts.authTag then
      .ok (decodeStr u.plaintextEncoding
        (ctrCipher prim u.key parts.iv 0 parts.ciphertext))
    else .error .authenticationFailure

/-- The constructor argument: a bare key candidate (string or Buffer) or
an IAesUtilParams object with optional fields. -/
inductive CtorArg where
  | key (k : BufOrStr)
  | params (providedKey : Option BufOrStr) (binaryMode : Option Bool)
      (plaintextEncoding : Option BufferEncoding)
deriving DecidableEq

/-- new AesUtil(...) (src/src/aesutil.ts constructor): a Buffer, string
or absent argument is the key candidate; otherwise the params object is
read, its truthy binaryMode and plaintextEncoding overriding the
defaults.  Key resolution happens at construction and its failure is the
construction failure. -/
def newAesUtil (envKey : Option JSString) (arg : Option CtorArg) :
    Except AesError AesUtil :=
  match arg with
  | none =>
    (getCipherKey envKey none).map fun kb =>
      { key := kb, binaryMode := false, plaintextEncoding := .utf8 }
  | some (.key k) =>
    (getCipherKey envKey (some k)).map fun kb =>
      { key := kb, binaryMode := false, plaintextEncoding := .utf8 }
  | some (.params pk bm pe) =>
    (getCipherKey envKey pk).map fun kb =>
      { key := kb
        binaryMode := match bm with | some true => true | _ => false
        plaintextEncoding := match pe with | some e => e | none => .utf8 }

/-- encryptValue (src/src/aesutil.ts lines 150-154): the expression
(key ? new AesUtil(key) : new AesUtil()).encrypt(value, associatedData),
a transient instance per call. -/
def encryptValue (prim : AeadPrim) (seed : Nat) (envKey : Option JSString)
    (value : JSString) (associatedData : Option JSString)
    (key : Option BufOrStr) : Except AesError JSString :=
  let util :=
    if optTruthy key then newAesUtil envKey (key.map .key)
    else newAesUtil envKey none
  match util with
  | .error e => .error e
  | .ok u => .ok (AesUtil.encrypt prim seed u value associatedData)

/-- decryptValue (src/src/aesutil.ts lines 144-148): the expression
(key ? new AesUtil(key) : new AesUtil()).decrypt(value, associatedData). -/
def decryptValue (prim : AeadPrim) (envKey : Option JSString)
    (value : JSString) (associatedData : Option JSString)
    (key : Option BufOrStr) : Except AesError JSString :=
  let util :=
    if optTruthy key then newAesUtil envKey (key.map .key)
    else newAesUtil envKey none
  match util with
  | .error e => .error e
  | .ok u => AesUtil.decrypt prim u value associatedData

/-- encryptValue of src/unnamed/part_003 (lines 58-74): resolve the
provided or random IV via getIv, resolve the key, run the cipher over
the UTF-8 plaintext, and emit base64(iv).base64(tag).base64(ciphertext).
The functional variant is the one entry point that accepts a pinned
IV. -/
def Part003.encryptValue (prim : AeadPrim) (seed : Nat)
    (envKey : Option JSString) (value : JSString)
    (associatedData : Option JSString) (key : Option BufOrStr)
    (iv : Option BufOrStr) : Except AesError JSString :=
  match getIv seed iv with
  | .error e => .error e
  | .ok ivBytes =>
    match getCipherKey envKey key with
    | .error e => .error e
    | .ok keyBytes =>
      let encrypted := ctrCipher prim keyBytes ivBytes 0 (utf8Enc value)
      let authTag := prim.tagOf keyBytes ivBytes (aadBytes associatedData) encrypted
      .ok (b64encode ivBytes ++ 46 :: b64encode authTag ++ 46 :: b64encode encrypted)

/-! ### Byte-level lemmas -/

theorem b64CharVal_encChar (v : Nat) : b64CharVal (b64EncChar v) = some (v % 64) := by
  have h : v % 64 < 64 := Nat.mod_lt _ (by omega)
  have key : ∀ i < 64, b64CharVal (b64Table.getD i 65) = some i := by decide
  simpa [b64EncChar] using key _ h

theorem b64CharVal_pad : b64CharVal 61 = none := by decide

theorem b64EncChar_not_pad (v : Nat) : (b64EncChar v % 256 != 61) = true := by
  have h : v % 64 < 64 := Nat.mod_lt _ (by omega)
  have key : ∀ i < 64, (b64Table.getD i 65 % 256 != 61) = true := by decide
  simpa [b64EncChar] using key _ h

theorem takeWhile_encChar_cons (v : Nat) (l : List Nat) :
    List.takeWhile (fun c => c % 256 != 61) (b64EncChar v :: l) =
      b64EncChar v :: List.takeWhile (fun c => c % 256 != 61) l := by
  simp [List.takeWhile_cons, b64EncChar_not_pad]

theorem takeWhile_pad (l : List Nat) :
    List.takeWhile (fun c => c % 256 != 61) (61 :: l) = [] := by
  simp [List.takeWhile_cons]

theorem b64decode_encode (b : List Nat) (hb : ∀ x ∈ b, x < 256) :
    b64decode (b64encode b) = b := by
  induction b using b64encode.induct with
  | case1 => rfl
  | case2 b1 =>
    have h1 : b1 < 256 := hb b1 (by simp)
    simp only [b64encode, b64decode, takeWhile_encChar_cons, takeWhile_pad,
      List.filterMap_cons, b64CharVal_encChar, List.filterMap_nil, decodeQuads,
      List.cons.injEq, and_true]
    omega
  | case3 b1 b2 =>
    have h1 : b1 < 256 := hb b1 (by simp)
    have h2 : b2 < 256 := hb b2 (by simp)
    simp only [b64encode, b64decode, takeWhile_encChar_cons, takeWhile_pad,
      List.filterMap_cons, b64CharVal_encChar, List.filterMap_nil, decodeQuads,
      List.cons.injEq, and_true]
    omega
  | case4 b1 b2 b3 rest ih =>
    have h1 : b1 < 256 := hb b1 (by simp)
    have h2 : b2 < 256 := hb b2 (by simp)
    have h3 : b3 < 256 := hb b3 (by simp)
    have ih2 := ih fun x hx => hb x (by simp [hx])
    simp only [b64decode] at ih2
    simp only [b64encode, b64decode, takeWhile_encChar_cons,
      List.filterMap_cons, b64CharVal_encChar, decodeQuads, List.cons.injEq]
    exact ⟨by omega, by omega, by omega, ih2⟩

theorem isBase64Chr_encChar (v : Nat) : isBase64Chr (b64EncChar v) = true := by
  have h : v % 64 < 64 := Nat.mod_lt _ (by omega)
  have key : ∀ i < 64, isBase64Chr (b64Table.getD i 65) = true := by decide
  simpa [b64EncChar] using key _ h

theorem b64encode_chars (b : List Nat) :
    ∀ c ∈ b64encode b, isBase64Chr c = true := by
  induction b using b64encode.induct with
  | case1 => simp [b64encode]
  | case2 b1 =>
    simp [b64encode, isBase64Chr_encChar]
    decide
  | case3 b1 b2 =>
    simp [b64encode, isBase64Chr_encChar]
    decide
  | case4 b1 b2 b3 rest ih =>
    intro c hc
    simp only [b64encode, List.mem_cons] at hc
    rcases hc with h | h | h | h | h
    all_goals first
      | (subst h; exact isBase64Chr_encChar _)
      | exact ih c h

theorem b64encode_no_dot (b : List Nat) : ∀ c ∈ b64encode b, c ≠ 46 := by
  intro c hc
  have h := b64encode_chars b c hc
  intro h46
  subst h46
  simp [isBase64Chr] at h

theorem splitOnDot_ne_nil (s : JSString) : splitOnDot s ≠ [] := by
  induction s with
  | nil => simp [splitOnDot]
  | cons c rest ih =>
    simp only [splitOnDot]
    split
    · simp
    · match h : splitOnDot rest with
      | [] => simp
      | f :: fs => simp

theorem splitOnDot_noDot (a : JSString) (h : ∀ c ∈ a, c ≠ 46) :
    splitOnDot a = [a] := by
  induction a with
  | nil => rfl
  | cons c rest ih =>
    have hc : c ≠ 46 := h c (by simp)
    have hrest := ih fun x hx => h x (by simp [hx])
    simp only [splitOnDot, if_neg hc, hrest]

theorem splitOnDot_append (a : JSString) (h : ∀ c ∈ a, c ≠ 46) (r : JSString) :
    splitOnDot (a ++ 46 :: r) = a :: splitOnDot r := by
  induction a with
  | nil => simp [splitOnDot]
  | cons c rest ih =>
    have hc : c ≠ 46 := h c (by simp)
    have hrest := ih fun x hx => h x (by simp [hx])
    simp only [List.cons_append, splitOnDot, if_neg hc, List.append_eq, hrest]

theorem ctrCipher_length (prim : AeadPrim) (key iv : List Nat) (i : Nat)
    (l : List Nat) : (ctrCipher prim key iv i l).length = l.length := by
  induction l generalizing i with
  | nil => rfl
  | cons b bs ih => simp [ctrCipher, ih]

theorem ctrCipher_involutive (prim : AeadPrim) (key iv : List Nat) (i : Nat)
    (l : List Nat) : ctrCipher prim key iv i (ctrCipher prim key iv i l) = l := by
  induction l generalizing i with
  | nil => rfl
  | cons b bs ih =>
    simp only [ctrCipher, List.cons.injEq]
    exact ⟨Nat.xor_cancel_right _ _, ih _⟩

theorem ctrCipher_bound (prim : AeadPrim) (key iv : List Nat) (i : Nat)
    (l : List Nat) (hl : ∀ x ∈ l, x < 256) :
    ∀ x ∈ ctrCipher prim key iv i l, x < 256 := by
  induction l generalizing i with
  | nil => simp [ctrCipher]
  | cons b bs ih =>
    intro x hx
    simp only [ctrCipher, List.mem_cons] at hx
    rcases hx with h | h
    · subst h
      have hb : b < 256 := hl b (by simp)
      have hk : prim.ks key iv i % 256 < 256 := Nat.mod_lt _ (by omega)
      exact Nat.xor_lt_two_pow (n := 8) hb hk
    · exact ih (i + 1) (fun x hx => hl x (by simp [hx])) x h

theorem randomBytes_length (seed n : Nat) : (randomBytes seed n).length = n := by
  simp [randomBytes]

theorem randomBytes_bound (seed n : Nat) : ∀ x ∈ randomBytes seed n, x < 256 := by
  intro x hx
  simp only [randomBytes, List.mem_map] at hx
  obtain ⟨i, _, rfl⟩ := hx
  exact Nat.mod_lt _ (by omega)

theorem map_mod_256_id (l : List Nat) (h : ∀ x ∈ l, x < 256) :
    l.map (· % 256) = l := by
  conv_rhs => rw [← List.map_id l]
  exact List.map_congr_left fun x hx => Nat.mod_eq_of_lt (h x hx)

theorem utf8EncOne_bound (c : Nat) (hc : c < 0x10000) :
    ∀ x ∈ utf8EncOne c, x < 256 := by
  intro x hx
  simp only [utf8EncOne] at hx
  split at hx
  · simp at hx; omega
  · split at hx
    · simp at hx
      rcases hx with h | h <;> omega
    · simp at hx
      rcases hx with h | h | h <;> omega

theorem utf8EncOne_ne_nil (c : Nat) : utf8EncOne c ≠ [] := by
  simp only [utf8EncOne]
  split
  · simp
  · split <;> simp

theorem utf8Enc_bound (s : JSString) : ∀ x ∈ utf8Enc s, x < 256 := by
  induction s using utf8Enc.induct with
  | case1 => simp [utf8Enc]
  | case2 c h1 =>
    intro x hx
    simp only [utf8Enc, if_pos h1, replacementBytes, List.mem_cons,
      List.not_mem_nil, or_false] at hx
    rcases hx with rfl | rfl | rfl <;> omega
  | case3 c h1 =>
    intro x hx
    simp only [utf8Enc, if_neg h1] at hx
    exact utf8EncOne_bound _ (Nat.mod_lt _ (by omega)) x hx
  | case4 c d rest h1 h2 ih =>
    intro x hx
    simp only [utf8Enc, if_pos h1, if_pos h2, List.mem_cons] at hx
    simp only [isHighSurrogate, Bool.and_eq_true, decide_eq_true_eq] at h1
    simp only [isLowSurrogate, Bool.and_eq_true, decide_eq_true_eq] at h2
    rcases hx with h | h | h | h | h
    · omega
    · omega
    · omega
    · omega
    · exact ih x h
  | case5 c d rest h1 h2 ih =>
    intro x hx
    simp only [utf8Enc, if_pos h1, if_neg h2, List.mem_append, replacementBytes,
      List.mem_cons, List.not_mem_nil, or_false] at hx
    rcases hx with (rfl | rfl | rfl) | h
    · omega
    · omega
    · omega
    · exact ih x h
  | case6 c d rest h1 h2 ih =>
    intro x hx
    simp only [utf8Enc, if_neg h1, if_pos h2, List.mem_append, replacementBytes,
      List.mem_cons, List.not_mem_nil, or_false] at hx
    rcases hx with (rfl | rfl | rfl) | h
    · omega
    · omega
    · omega
    · exact ih x h
  | case7 c d rest h1 h2 ih =>
    intro x hx
    simp only [utf8Enc, if_neg h1, if_neg h2, List.mem_append] at hx
    rcases hx with h | h
    · exact utf8EncOne_bound _ (Nat.mod_lt _ (by omega)) x h
    · exact ih x h

theorem utf8Enc_ne_nil (s : JSString) (hs : s ≠ []) : utf8Enc s ≠ [] := by
  match s with
  | [] => exact absurd rfl hs
  | [c] =>
    simp only [utf8Enc]
    split
    · decide
    · exact utf8EncOne_ne_nil _
  | c :: d :: rest =>
    simp only [utf8Enc]
    split
    · split
      · simp
      · simp [replacementBytes]
    · split
      · simp [replacementBytes]
      · simp [utf8EncOne_ne_nil]

theorem hexDigitVal_lt (c v : Nat) (h : hexDigitVal c = some v) : v < 16 := by
  simp only [hexDigitVal] at h
  split at h
  · simp only [Option.some.injEq] at h; omega
  · split at h
    · simp only [Option.some.injEq] at h; omega
    · split at h
      · simp only [Option.some.injEq] at h; omega
      · simp at h

theorem hexStrToBytes_bound (s : JSString) : ∀ x ∈ hexStrToBytes s, x < 256 := by
  induction s using hexStrToBytes.induct with
  | case1 c1 c2 rest h l hc2 hc1 ih =>
    intro x hx
    simp only [hexStrToBytes, hc1, hc2, List.mem_cons] at hx
    rcases hx with hh | hh
    · have u1 := hexDigitVal_lt c1 h hc1
      have u2 := hexDigitVal_lt c2 l hc2
      omega
    · exact ih x hh
  | case2 c1 c2 rest hm =>
    intro x hx
    simp only [hexStrToBytes] at hx
    simp at hx
  | case3 t ht =>
    intro x hx
    match t, ht with
    | [], _ => simp [hexStrToBytes] at hx
    | [c], _ => simp [hexStrToBytes] at hx
    | c1 :: c2 :: rest, ht => exact absurd rfl (ht c1 c2 rest)

theorem encodeStr_bound (enc : BufferEncoding) (s : JSString) :
    ∀ x ∈ encodeStr enc s, x < 256 := by
  cases enc with
  | utf8 => exact utf8Enc_bound s
  | hex => exact hexStrToBytes_bound s
  | latin1 =>
    intro x hx
    simp only [encodeStr, List.mem_map] at hx
    obtain ⟨y, _, rfl⟩ := hx
    exact Nat.mod_lt _ (by omega)
  | ascii =>
    intro x hx
    simp only [encodeStr, List.mem_map] at hx
    obtain ⟨y, _, rfl⟩ := hx
    exact Nat.mod_lt _ (by omega)

theorem intercalate_three (x y z : List Nat) :
    List.intercalate [46] [x, y, z] = x ++ 46 :: (y ++ 46 :: z) := by
  simp [List.intercalate, List.intersperse]

/-- Decoding an encoded envelope recovers the parts, in either mode,
provided the IV is 12 bytes, every byte value is in range, and (in
binary mode, where the slice offsets assume it) the tag is 16 bytes. -/
theorem decodeInput_encodeOutput (u : AesUtil) (parts : CiphertextParts)
    (hivL : parts.iv.length = IV_BYTE_LEN)
    (hivB : ∀ x ∈ parts.iv, x < 256)
    (hctB : ∀ x ∈ parts.ciphertext, x < 256)
    (htagB : ∀ x ∈ parts.authTag, x < 256)
    (htagL : u.binaryMode = true → parts.authTag.length = 16) :
    u.decodeInput (u.encodeOutput parts) = .ok parts := by
  obtain ⟨ct, iv, tag⟩ := parts
  simp only at hivL hivB hctB htagB htagL
  cases hbm : u.binaryMode with
  | false =>
    simp only [AesUtil.encodeOutput, AesUtil.decodeInput, hbm, Bool.false_eq_true,
      if_false, List.map_cons, List.map_nil, intercalate_three]
    rw [splitOnDot_append _ (b64encode_no_dot iv),
      splitOnDot_append _ (b64encode_no_dot tag),
      splitOnDot_noDot _ (b64encode_no_dot ct)]
    simp only [List.getElem?_cons_zero, List.getElem?_cons_succ]
    rw [b64decode_encode iv hivB, b64decode_encode tag htagB,
      b64decode_encode ct hctB]
  | true =>
    have htagL16 : tag.length = 16 := htagL hbm
    simp only [AesUtil.encodeOutput, AesUtil.decodeInput, hbm, if_true,
      List.flatten, List.append_nil, IV_BYTE_LEN]
    have hall : ∀ x ∈ iv ++ (tag ++ ct), x < 256 := by
      intro x hx
      simp only [List.mem_append] at hx
      rcases hx with h | h | h
      · exact hivB x h
      · exact htagB x h
      · exact hctB x h
    rw [map_mod_256_id _ hall]
    have hivL12 : iv.length = 12 := hivL
    have h1 : (iv ++ (tag ++ ct)).take 12 = iv := List.take_left' hivL12
    have h2 : (iv ++ (tag ++ ct)).drop 12 = tag ++ ct := List.drop_left' hivL12
    have h3 : ((iv ++ (tag ++ ct)).drop 12).take 16 = tag := by
      rw [h2]
      exact List.take_left' htagL16
    have h4 : (iv ++ (tag ++ ct)).drop 28 = ct := by
      have := List.drop_drop 16 12 (iv ++ (tag ++ ct))
      rw [show (16 + 12 : Nat) = 28 from rfl] at this
      rw [← this, h2]
      exact List.drop_left' htagL16
    rw [h1, h3, h4]

/-! ### Concrete instances used to evaluate the model -/

/-- A 32-byte key of value 98 (the letter b), as in the repository tests. -/
def keyBytesB : List Nat := List.replicate 32 98

/-- Default-configuration instance: text mode, UTF-8. -/
def utilDefault : AesUtil := { key := keyBytesB }

/-- Instance with plaintextEncoding hex. -/
def utilHex : AesUtil := { key := keyBytesB, plaintextEncoding := .hex }

/-- Instance with binaryMode true. -/
def utilBinary : AesUtil := { key := keyBytesB, binaryMode := true }

/-- The authentication tag AesUtil.encrypt computes internally for a
given primitive, seed, instance, plaintext and associated data (named so
that hypotheses about the collaborator's tag shape can refer to it). -/
def encTag (prim : AeadPrim) (seed : Nat) (u : AesUtil) (p : JSString)
    (a : Option JSString) : List Nat :=
  prim.tagOf u.key (AesUtil.getIv seed) (aadBytes a)
    (ctrCipher prim u.key (AesUtil.getIv seed) 0 (encodeStr u.plaintextEncoding p))

/-- Round-trip core: decrypting an encryption with the same instance and
associated data recovers the canonical rendering of the plaintext.
Shared by the round-trip claims. -/
theorem aesRoundTrip (prim : AeadPrim) (u : AesUtil) (p : JSString)
    (a : Option JSString) (seed : Nat)
    (htagB : ∀ x ∈ encTag prim seed u p a, x < 256)
    (htagL : u.binaryMode = true → (encTag prim seed u p a).length = 16)
    (hp : decodeStr u.plaintextEncoding (encodeStr u.plaintextEncoding p) = p) :
    AesUtil.decrypt prim u (AesUtil.encrypt prim seed u p a) a = .ok p := by
  have hivL : (AesUtil.getIv seed).length = IV_BYTE_LEN := by
    simp [AesUtil.getIv, randomBytes_length]
  have hivB : ∀ x ∈ AesUtil.getIv seed, x < 256 := randomBytes_bound seed IV_BYTE_LEN
  have hctB := ctrCipher_bound prim u.key (AesUtil.getIv seed) 0
    (encodeStr u.plaintextEncoding p) (encodeStr_bound u.plaintextEncoding p)
  have hdec := decodeInput_encodeOutput u
    { ciphertext := ctrCipher prim u.key (AesUtil.getIv seed) 0
        (encodeStr u.plaintextEncoding p)
      iv := AesUtil.getIv seed
      authTag := encTag prim seed u p a } hivL hivB hctB htagB htagL
  simp only [AesUtil.encrypt, AesUtil.decrypt]
  rw [show prim.tagOf u.key (AesUtil.getIv seed) (aadBytes a)
      (ctrCipher prim u.key (AesUtil.getIv seed) 0
        (encodeStr u.plaintextEncoding p)) = encTag prim seed u p a from rfl]
  rw [hdec]
  simp only [encTag, if_true]
  rw [ctrCipher_involutive, hp]

/-! ### C1 -/

/-- C1 (amended): for every AEAD collaborator, instance (either codec
mode, any supported plaintextEncoding), plaintext, optional associated
data and entropy, decrypt(encrypt(p, a), a) = ok p — provided the
collaborator's tag is made of bytes (and is 16 bytes long when
binaryMode slices by fixed offsets), and provided p is canonical for the
instance encoding, i.e. re-rendering its byte interpretation yields p
itself.  The canonicity proviso is forced: see the counterexample, where
an uppercase hex plaintext comes back lowercased. -/
theorem encrypt_decrypt_roundTrip (prim : AeadPrim) (u : AesUtil) (p : JSString)
    (a : Option JSString) (seed : Nat)
    (htagB : ∀ x ∈ encTag prim seed u p a, x < 256)
    (htagL : u.binaryMode = true → (encTag prim seed u p a).length = 16)
    (hp : decodeStr u.plaintextEncoding (encodeStr u.plaintextEncoding p) = p) :
    AesUtil.decrypt prim u (AesUtil.encrypt prim seed u p a) a = .ok p :=
  aesRoundTrip prim u p a seed htagB htagL hp

/-- Witness: a concrete round trip through the default text/UTF-8
instance with the model collaborator. -/
theorem encrypt_decrypt_roundTrip_witness :
    AesUtil.decrypt aeadModel utilDefault
      (AesUtil.encrypt aeadModel 5 utilDefault [104, 105] none) none =
      .ok [104, 105] :=
  encrypt_decrypt_roundTrip aeadModel utilDefault [104, 105] none 5
    (by decide) (fun h => Bool.noConfusion h) (by decide)

/-- Counterexample to C1 as stated: with plaintextEncoding hex, the
plaintext AB (uppercase hex digits, code units [65, 66]) decrypts to ab
([97, 98]), not to itself — Buffer.toString(hex) always renders
lowercase. -/
theorem encrypt_decrypt_roundTrip_counterexample :
    AesUtil.decrypt aeadModel utilHex
        (AesUtil.encrypt aeadModel 0 utilHex [65, 66] none) none =
        .ok [97, 98] ∧
      AesUtil.decrypt aeadModel utilHex
        (AesUtil.encrypt aeadModel 0 utilHex [65, 66] none) none ≠
        .ok [65, 66] := by
  constructor
  · decide
  · decide

/-- Evaluating AesUtil.decrypt once decoding has succeeded. -/
theorem decrypt_decodeOk (prim : AeadPrim) (u : AesUtil) (e : JSString)
    (a : Option JSString) (parts : CiphertextParts)
    (h : u.decodeInput e = .ok parts) :
    AesUtil.decrypt prim u e a =
      if prim.tagOf u.key parts.iv (aadBytes a) parts.ciphertext = parts.authTag
      then .ok (decodeStr u.plaintextEncoding
        (ctrCipher prim u.key parts.iv 0 parts.ciphertext))
      else .error .authenticationFailure := by
  simp only [AesUtil.decrypt, h]

/-! ### C2 -/

/-- An identity-tag collaborator: the tag is the associated data itself.
It trivially distinguishes associated data, which makes it a concrete
instance of the idealised authenticity assumption. -/
def tagIdPrim : AeadPrim where
  ks := fun _ _ _ => 0
  tagOf := fun _ _ aad _ => aad

/-- C2 (amended): whenever the collaborator's tag distinguishes the
associated data actually used (the idealised GCM authenticity property,
stated at the point of use), decrypting with different associated data
than a nonempty A whose UTF-8 bytes differ from B's, or with absent
associated data, fails with AuthenticationFailure.  The nonemptiness of
A and the byte-level (not string-level) distinctness are forced: the
code treats an empty (falsy) string exactly like absent associated data
— see the counterexample — and only the UTF-8 bytes of the strings
reach the primitive. -/
theorem aad_binding (prim : AeadPrim) (u : AesUtil) (p A B : JSString) (seed : Nat)
    (hinj : ∀ a1 a2 : List Nat,
      prim.tagOf u.key (AesUtil.getIv seed) a1
          (ctrCipher prim u.key (AesUtil.getIv seed) 0
            (encodeStr u.plaintextEncoding p)) =
        prim.tagOf u.key (AesUtil.getIv seed) a2
          (ctrCipher prim u.key (AesUtil.getIv seed) 0
            (encodeStr u.plaintextEncoding p)) → a1 = a2)
    (hA : A ≠ [])
    (hAB : utf8Enc A ≠ utf8Enc B)
    (htagB : ∀ x ∈ encTag prim seed u p (some A), x < 256)
    (htagL : u.binaryMode = true → (encTag prim seed u p (some A)).length = 16) :
    AesUtil.decrypt prim u (AesUtil.encrypt prim seed u p (some A)) (some B) =
        .error .authenticationFailure ∧
      AesUtil.decrypt prim u (AesUtil.encrypt prim seed u p (some A)) none =
        .error .authenticationFailure := by
  have hivL : (AesUtil.getIv seed).length = IV_BYTE_LEN := by
    simp [AesUtil.getIv, randomBytes_length]
  have hivB : ∀ x ∈ AesUtil.getIv seed, x < 256 := randomBytes_bound seed IV_BYTE_LEN
  have hctB := ctrCipher_bound prim u.key (AesUtil.getIv seed) 0
    (encodeStr u.plaintextEncoding p) (encodeStr_bound u.plaintextEncoding p)
  have hdec := decodeInput_encodeOutput u
    { ciphertext := ctrCipher prim u.key (AesUtil.getIv seed) 0
        (encodeStr u.plaintextEncoding p)
      iv := AesUtil.getIv seed
      authTag := encTag prim seed u p (some A) } hivL hivB hctB htagB htagL
  have hAbytes : aadBytes (some A) = utf8Enc A := by
    simp only [aadBytes, List.isEmpty_eq_true]
    rw [if_neg hA]
  have hne1 : ¬ (prim.tagOf u.key (AesUtil.getIv seed) (aadBytes (some B))
      (ctrCipher prim u.key (AesUtil.getIv seed) 0
        (encodeStr u.plaintextEncoding p)) = encTag prim seed u p (some A)) := by
    intro heq
    have hbytes := hinj _ _ heq
    rw [hAbytes] at hbytes
    by_cases hB : B = []
    · subst hB
      simp only [aadBytes, List.isEmpty_nil, if_pos rfl] at hbytes
      exact utf8Enc_ne_nil A hA hbytes.symm
    · simp only [aadBytes, List.isEmpty_eq_true] at hbytes
      rw [if_neg hB] at hbytes
      exact hAB hbytes.symm
  have hne2 : ¬ (prim.tagOf u.key (AesUtil.getIv seed) (aadBytes none)
      (ctrCipher prim u.key (AesUtil.getIv seed) 0
        (encodeStr u.plaintextEncoding p)) = encTag prim seed u p (some A)) := by
    intro heq
    have hbytes := hinj _ _ heq
    rw [hAbytes] at hbytes
    simp only [aadBytes] at hbytes
    exact utf8Enc_ne_nil A hA hbytes.symm
  constructor
  · simp only [AesUtil.encrypt]
    rw [show prim.tagOf u.key (AesUtil.getIv seed) (aadBytes (some A))
        (ctrCipher prim u.key (AesUtil.getIv seed) 0
          (encodeStr u.plaintextEncoding p)) = encTag prim seed u p (some A)
        from rfl]
    rw [decrypt_decodeOk prim u _ (some B) _ hdec]
    split
    · rename_i heq
      exact absurd heq hne1
    · rfl
  · simp only [AesUtil.encrypt]
    rw [show prim.tagOf u.key (AesUtil.getIv seed) (aadBytes (some A))
        (ctrCipher prim u.key (AesUtil.getIv seed) 0
          (encodeStr u.plaintextEncoding p)) = encTag prim seed u p (some A)
        from rfl]
    rw [decrypt_decodeOk prim u _ none _ hdec]
    split
    · rename_i heq
      exact absurd heq hne2
    · rfl

/-- Witness: with the identity-tag collaborator (which distinguishes all
associated data), encrypting with x and decrypting with y or nothing
fails. -/
theorem aad_binding_witness :
    AesUtil.decrypt tagIdPrim utilDefault
        (AesUtil.encrypt tagIdPrim 0 utilDefault [104] (some [120])) (some [121]) =
        .error .authenticationFailure ∧
      AesUtil.decrypt tagIdPrim utilDefault
        (AesUtil.encrypt tagIdPrim 0 utilDefault [104] (some [120])) none =
        .error .authenticationFailure :=
  aad_binding tagIdPrim utilDefault [104] [120] [121] 0
    (fun _ _ h => h) (by decide) (by decide) (by decide)
    (fun h => Bool.noConfusion h)

/-- Counterexample to C2 as stated: for A the empty string, encryption
never binds the associated data (the if guard sees a falsy value), so
decrypting with absent associated data succeeds instead of failing with
AuthenticationFailure. -/
theorem aad_binding_counterexample :
    AesUtil.decrypt aeadModel utilDefault
      (AesUtil.encrypt aeadModel 0 utilDefault [104, 105] (some [])) none =
      .ok [104, 105] := by decide

/-! ### C10 -/

/-- C10 (amended): for every input whatsoever, the empty associated-data
string is treated exactly like absent associated data by both encrypt
and decrypt — encrypt(p, empty) = encrypt(p, absent) and
decrypt(e, empty) = decrypt(e, absent) hold unconditionally; and the
resulting round trip decrypt(encrypt(p, empty), absent) succeeds with
ok p whenever the collaborator's tag is byte-valued (16 bytes in binary
mode) and p is canonical for the instance encoding (for the default
UTF-8 this means all well-formed strings; a lone surrogate comes back
as U+FFFD — see the counterexample). -/
theorem emptyAad_eq_absent (prim : AeadPrim) (u : AesUtil) (p e : JSString)
    (seed : Nat) :
    AesUtil.encrypt prim seed u p (some []) = AesUtil.encrypt prim seed u p none ∧
      AesUtil.decrypt prim u e (some []) = AesUtil.decrypt prim u e none ∧
      ((∀ x ∈ encTag prim seed u p (some []), x < 256) →
        (u.binaryMode = true → (encTag prim seed u p (some [])).length = 16) →
        decodeStr u.plaintextEncoding (encodeStr u.plaintextEncoding p) = p →
        AesUtil.decrypt prim u (AesUtil.encrypt prim seed u p (some [])) none =
          .ok p) := by
  refine ⟨rfl, rfl, ?_⟩
  intro htagB htagL hp
  exact aesRoundTrip prim u p none seed htagB htagL hp

/-- Witness: concrete empty-string associated data behaves as absent and
round-trips. -/
theorem emptyAad_eq_absent_witness :
    AesUtil.encrypt aeadModel 9 utilDefault [104, 105] (some []) =
        AesUtil.encrypt aeadModel 9 utilDefault [104, 105] none ∧
      AesUtil.decrypt aeadModel utilDefault [97] (some []) =
        AesUtil.decrypt aeadModel utilDefault [97] none ∧
      AesUtil.decrypt aeadModel utilDefault
        (AesUtil.encrypt aeadModel 9 utilDefault [104, 105] (some [])) none =
        .ok [104, 105] :=
  ⟨(emptyAad_eq_absent aeadModel utilDefault [104, 105] [97] 9).1,
    (emptyAad_eq_absent aeadModel utilDefault [104, 105] [97] 9).2.1,
    (emptyAad_eq_absent aeadModel utilDefault [104, 105] [97] 9).2.2
      (by decide) (fun h => Bool.noConfusion h) (by decide)⟩

/-- Counterexample to C10 as stated: for the plaintext consisting of the
lone surrogate code unit 0xD800, decrypt(encrypt(p, empty), absent)
succeeds but returns U+FFFD (65533), not p — the UTF-8 interpretation
replaces the unpaired surrogate before encryption. -/
theorem emptyAad_eq_absent_counterexample :
    AesUtil.decrypt aeadModel utilDefault
        (AesUtil.encrypt aeadModel 0 utilDefault [55296] (some [])) none =
        .ok [65533] ∧
      AesUtil.decrypt aeadModel utilDefault
        (AesUtil.encrypt aeadModel 0 utilDefault [55296] (some [])) none ≠
        .ok [55296] := by
  constructor
  · decide
  · decide

/-! ### C3 -/

/-- C3 (amended): in text mode, decodeInput never checks for exactly
three fields.  When the split yields fewer than three fields it throws
(the TypeError from handing the undefined destructured field to
Buffer.from) before any AEAD call; when it yields three or more fields
it proceeds, Base64-decoding the first three fields and silently
ignoring the rest — no MalformedEnvelope-style rejection of a
four-or-more-field input exists.  See the counterexample: a valid
envelope with a junk fourth field still decodes (and decrypts). -/
theorem decodeInput_text_fields (u : AesUtil) (e : JSString)
    (hbm : u.binaryMode = false) :
    ((splitOnDot e).length < 3 → u.decodeInput e = .error .typeErrorUndefined) ∧
      (∀ f0 f1 f2 rest, splitOnDot e = f0 :: f1 :: f2 :: rest →
        u.decodeInput e = .ok {
          ciphertext := b64decode f2
          iv := b64decode f0
          authTag := b64decode f1 }) := by
  constructor
  · intro hlen
    simp only [AesUtil.decodeInput, hbm, Bool.false_eq_true, if_false]
    rcases hsp : splitOnDot e with _ | ⟨f0, _ | ⟨f1, _ | ⟨f2, rest⟩⟩⟩
    · simp
    · simp
    · simp
    · rw [hsp] at hlen
      simp only [List.length_cons] at hlen
      omega
  · intro f0 f1 f2 rest hsp
    simp only [AesUtil.decodeInput, hbm, Bool.false_eq_true, if_false, hsp]
    simp

/-- Witness: the four-field string a.b.c.d decodes to the first three
fields with the fourth ignored. -/
theorem decodeInput_text_fields_witness :
    utilDefault.decodeInput [97, 46, 98, 46, 99, 46, 100] =
      .ok {
        ciphertext := b64decode [99]
        iv := b64decode [97]
        authTag := b64decode [98] } :=
  (decodeInput_text_fields utilDefault [97, 46, 98, 46, 99, 46, 100] rfl).2
    [97] [98] [99] [[100]] (by decide)

/-- Counterexample to C3 as stated: appending the field .j to a valid
envelope gives a four-field input (not exactly three), yet decoding does
not fail — the whole decryption still succeeds. -/
theorem decodeInput_text_fields_counterexample :
    (splitOnDot (AesUtil.encrypt aeadModel 0 utilDefault [104, 105] none ++
        [46, 106])).length = 4 ∧
      AesUtil.decrypt aeadModel utilDefault
        (AesUtil.encrypt aeadModel 0 utilDefault [104, 105] none ++ [46, 106])
        none = .ok [104, 105] := by
  constructor
  · decide
  · decide

/-! ### C4 -/

/-- C4 (amended): in binary mode decodeInput never fails and performs no
length check: it always returns iv = bytes[0:12], authTag =
bytes[12:28], ciphertext = bytes[28:] with JS subarray clamping, so for
inputs of length >= 28 the slices are exactly as the claim says (12-byte
IV, 16-byte tag, remainder ciphertext), while for shorter inputs the
decode still succeeds with truncated parts instead of failing with
MalformedEnvelope — any failure surfaces later from the AEAD
primitive. -/
theorem decodeInput_binary_slices (u : AesUtil) (e : JSString)
    (hbm : u.binaryMode = true) :
    u.decodeInput e = .ok {
        ciphertext := (e.map (· % 256)).drop 28
        iv := (e.map (· % 256)).take 12
        authTag := ((e.map (· % 256)).drop 12).take 16 } ∧
      (28 ≤ e.length →
        ((e.map (· % 256)).take 12).length = 12 ∧
          (((e.map (· % 256)).drop 12).take 16).length = 16 ∧
          ((e.map (· % 256)).drop 28).length = e.length - 28) := by
  constructor
  · simp only [AesUtil.decodeInput, hbm, if_true, IV_BYTE_LEN]
  · intro hlen
    refine ⟨?_, ?_, ?_⟩
    · simp only [List.length_take, List.length_map]
      omega
    · simp only [List.length_take, List.length_drop, List.length_map]
      omega
    · simp only [List.length_drop, List.length_map]

/-- Witness: a 30-byte binary input slices into 12-byte IV, 16-byte tag
and the 2 remaining ciphertext bytes. -/
theorem decodeInput_binary_slices_witness :
    utilBinary.decodeInput (List.range 30) =
        .ok {
          ciphertext := ((List.range 30).map (· % 256)).drop 28
          iv := ((List.range 30).map (· % 256)).take 12
          authTag := (((List.range 30).map (· % 256)).drop 12).take 16 } ∧
      (((List.range 30).map (· % 256)).take 12).length = 12 ∧
        ((((List.range 30).map (· % 256)).drop 12).take 16).length = 16 ∧
        (((List.range 30).map (· % 256)).drop 28).length =
          (List.range 30).length - 28 :=
  ⟨(decodeInput_binary_slices utilBinary (List.range 30) rfl).1,
    (decodeInput_binary_slices utilBinary (List.range 30) rfl).2 (by decide)⟩

/-- Counterexample to C4 as stated: a 20-byte binary input (shorter than
the 28-byte prefix) does not fail with MalformedEnvelope — decodeInput
returns truncated slices (12-byte IV, 8-byte tag, empty ciphertext). -/
theorem decodeInput_binary_slices_counterexample :
    (List.range 20).length < 28 ∧
      utilBinary.decodeInput (List.range 20) =
        .ok {
          ciphertext := []
          iv := [0, 1, 2, 3, 4, 5, 6, 7, 8, 9, 10, 11]
          authTag := [12, 13, 14, 15, 16, 17, 18, 19] } := by
  constructor
  · decide
  · decide

/-! ### C5 -/

theorem getCipherKey_truthyStr (env : Option JSString) (s : JSString)
    (hs : s ≠ []) :
    getCipherKey env (some (.str s)) =
      if !base64RegExTest s then .error .invalidKeyEncoding
      else if (b64decode s).length ≠ KEY_BYTE_LEN then .error .invalidKeyLength
      else .ok (b64decode s) := by
  have ht : (BufOrStr.str s).truthy = true := by
    simp [BufOrStr.truthy, hs]
  simp [getCipherKey, jsOrCandidate, ht]

theorem getCipherKey_buf (env : Option JSString) (b : List Nat) :
    getCipherKey env (some (.buf b)) =
      if b.length ≠ KEY_BYTE_LEN then .error .invalidKeyLength else .ok b := by
  simp [getCipherKey, jsOrCandidate, BufOrStr.truthy]

theorem getCipherKey_falsy (env : Option JSString) (pk : Option BufOrStr)
    (h : optTruthy pk = false) :
    getCipherKey env pk = getCipherKey env none := by
  rcases pk with _ | ⟨s | b⟩
  · rfl
  · have hs : s = [] := by
      simpa [optTruthy, BufOrStr.truthy] using h
    subst hs
    simp [getCipherKey, jsOrCandidate, BufOrStr.truthy]
  · simp [optTruthy, BufOrStr.truthy] at h

theorem getCipherKey_truthy_env_irrel (env : Option JSString)
    (pk : Option BufOrStr) (h : optTruthy pk = true) :
    getCipherKey env pk = getCipherKey none pk := by
  rcases pk with _ | k
  · simp [optTruthy] at h
  · simp only [optTruthy] at h
    simp [getCipherKey, jsOrCandidate, h]

theorem getCipherKey_not_missing_of_truthy (env : Option JSString)
    (pk : Option BufOrStr) (h : optTruthy pk = true) :
    getCipherKey env pk ≠ .error .missingKey := by
  rcases pk with _ | ⟨s | b⟩
  · simp [optTruthy] at h
  · have hs : s ≠ [] := by
      simp only [optTruthy, BufOrStr.truthy] at h
      simpa using h
    rw [getCipherKey_truthyStr env s hs]
    split
    · simp
    · split <;> simp
  · rw [getCipherKey_buf]
    split <;> simp

/-- C5 (amended): MissingKey occurs iff the candidate is falsy (absent
or the empty string — not merely absent) and the configured value is
falsy too; a truthy (nonempty) string candidate fails with
InvalidKeyEncoding iff some character falls outside [A-Za-z0-9+/=],
then with InvalidKeyLength iff the decoded length differs from 32, else
resolves to the decoded bytes; a Buffer candidate fails with
InvalidKeyLength iff not 32 bytes, else resolves as-is; an empty-string
candidate is treated exactly like an absent one (the env value wins),
and a truthy candidate takes precedence over the configured value.  The
falsy-candidate refinement is forced by the counterexample. -/
theorem getCipherKey_spec (env : Option JSString) (pk : Option BufOrStr) :
    ((getCipherKey env pk = .error .missingKey ↔
        optTruthy pk = false ∧ optTruthy (env.map .str) = false) ∧
      (∀ s, pk = some (.str s) → s ≠ [] →
        ((getCipherKey env pk = .error .invalidKeyEncoding ↔
            ¬ (∀ c ∈ s, isBase64Chr c = true)) ∧
          ((∀ c ∈ s, isBase64Chr c = true) →
            ((getCipherKey env pk = .error .invalidKeyLength ↔
                (b64decode s).length ≠ KEY_BYTE_LEN) ∧
              ((b64decode s).length = KEY_BYTE_LEN →
                getCipherKey env pk = .ok (b64decode s)))))) ∧
      (∀ b, pk = some (.buf b) →
        ((getCipherKey env pk = .error .invalidKeyLength ↔
            b.length ≠ KEY_BYTE_LEN) ∧
          (b.length = KEY_BYTE_LEN → getCipherKey env pk = .ok b))) ∧
      (pk = some (.str []) → getCipherKey env pk = getCipherKey env none) ∧
      (optTruthy pk = true → getCipherKey env pk = getCipherKey none pk)) := by
  refine ⟨?_, ?_, ?_, ?_, getCipherKey_truthy_env_irrel env pk⟩
  · cases hpk : optTruthy pk with
    | true =>
      simp only [Bool.true_eq_false, false_and, iff_false]
      exact getCipherKey_not_missing_of_truthy env pk hpk
    | false =>
      rw [getCipherKey_falsy env pk hpk]
      simp only [hpk, true_and]
      rcases env with _ | es
      · simp [getCipherKey, jsOrCandidate, optTruthy]
      · rcases hes : es with _ | ⟨c, cs⟩
        · simp [getCipherKey, jsOrCandidate, optTruthy, BufOrStr.truthy]
        · have hne : es ≠ [] := by simp [hes]
          rw [← hes]
          have h1 : getCipherKey (some es) none = getCipherKey (some es)
              (some (.str es)) := by
            simp [getCipherKey, jsOrCandidate, BufOrStr.truthy, hes]
          rw [h1]
          have h2 : optTruthy ((some es).map BufOrStr.str) = true := by
            simp [optTruthy, BufOrStr.truthy, hes]
          simp only [h2, Bool.true_eq_false, iff_false]
          exact getCipherKey_not_missing_of_truthy (some es) (some (.str es))
            (by simpa [optTruthy] using h2)
  · intro s hpk hs
    subst hpk
    rw [getCipherKey_truthyStr env s hs]
    have hall : base64RegExTest s = (s.all isBase64Chr) := by
      simp [base64RegExTest, hs]
    constructor
    · rw [hall]
      rcases ha : s.all isBase64Chr with _ | _
      · have hnall : ¬ (∀ c ∈ s, isBase64Chr c = true) := by
          intro hcontra
          exact absurd (List.all_eq_true.mpr hcontra) (by simp [ha])
        simp [hnall]
      · simp only [Bool.not_true, Bool.false_eq_true, if_false]
        have h3 : ∀ c ∈ s, isBase64Chr c = true := List.all_eq_true.mp ha
        constructor
        · intro hEq
          split at hEq <;> simp at hEq
        · intro hcon
          exact absurd h3 hcon
    · intro hchars
      have ha : s.all isBase64Chr = true := List.all_eq_true.mpr hchars
      rw [hall, ha]
      simp only [Bool.not_true, Bool.false_eq_true, if_false]
      constructor
      · by_cases hlen : (b64decode s).length = KEY_BYTE_LEN
        · rw [if_neg (by simp [hlen])]
          simp [hlen]
        · rw [if_pos hlen]
          simp [hlen]
      · intro hlen
        rw [if_neg (by simp [hlen])]
  · intro b hpk
    subst hpk
    rw [getCipherKey_buf]
    constructor
    · by_cases hlen : b.length = KEY_BYTE_LEN
      · rw [if_neg (by simp [hlen])]
        simp [hlen]
      · rw [if_pos hlen]
        simp [hlen]
    · intro hlen
      rw [if_neg (by simp [hlen])]
  · intro hpk
    subst hpk
    exact getCipherKey_falsy env _ rfl

/-- Witness: a 24-byte Buffer key candidate fails with InvalidKeyLength
(the spec's own length-validation example). -/
theorem getCipherKey_spec_witness :
    getCipherKey none (some (.buf (List.replicate 24 0))) =
      .error .invalidKeyLength :=
  ((getCipherKey_spec none (some (.buf (List.replicate 24 0)))).2.2.1
    (List.replicate 24 0) rfl).1.mpr (by decide)

/-- Counterexample to C5 as stated: the claimed equivalence
"MissingKey iff no explicit candidate and no configured key" is false —
with no configured key and the explicit candidate being the empty
string, getCipherKey still fails with MissingKey, because a falsy
candidate is discarded by the || fallback. -/
theorem getCipherKey_spec_counterexample :
    ¬ (∀ (env : Option JSString) (pk : Option BufOrStr),
      getCipherKey env pk = .error .missingKey ↔ (pk = none ∧ env = none)) := by
  intro h
  obtain ⟨h1, h2⟩ := (h none (some (.str []))).mp (by decide)
  exact Option.noConfusion h1

/-! ### C6 -/

/-- C6: getIv with no candidate returns the 12 random bytes drawn from
the entropy source; a string candidate fails with InvalidIvEncoding iff
it fails the module's Base64 test (one or more characters, all in
[A-Za-z0-9+/=]); once decoded (or when given as a Buffer) it fails with
InvalidIvLength iff the byte length differs from 12, and otherwise
resolves to exactly those bytes. -/
theorem getIv_spec (seed : Nat) (cand : Option BufOrStr) :
    ((getIv seed none = .ok (randomBytes seed IV_BYTE_LEN) ∧
        (randomBytes seed IV_BYTE_LEN).length = IV_BYTE_LEN) ∧
      (∀ s, cand = some (.str s) →
        ((getIv seed cand = .error .invalidIvEncoding ↔
            base64RegExTest s = false) ∧
          (base64RegExTest s = true →
            ((getIv seed cand = .error .invalidIvLength ↔
                (b64decode s).length ≠ IV_BYTE_LEN) ∧
              ((b64decode s).length = IV_BYTE_LEN →
                getIv seed cand = .ok (b64decode s)))))) ∧
      (∀ b, cand = some (.buf b) →
        ((getIv seed cand = .error .invalidIvLength ↔ b.length ≠ IV_BYTE_LEN) ∧
          (b.length = IV_BYTE_LEN → getIv seed cand = .ok b)))) := by
  refine ⟨⟨rfl, randomBytes_length seed IV_BYTE_LEN⟩, ?_, ?_⟩
  · intro s hc
    subst hc
    constructor
    · rcases hr : base64RegExTest s with _ | _
      · simp [getIv, hr]
      · simp only [getIv, hr, Bool.not_true, Bool.false_eq_true, if_false]
        constructor
        · intro hEq
          split at hEq <;> simp at hEq
        · intro hcon
          exact Bool.noConfusion hcon
    · intro hr
      simp only [getIv, hr, Bool.not_true, Bool.false_eq_true, if_false]
      constructor
      · by_cases hlen : (b64decode s).length = IV_BYTE_LEN
        · rw [if_neg (by simp [hlen])]
          simp [hlen]
        · rw [if_pos hlen]
          simp [hlen]
      · intro hlen
        rw [if_neg (by simp [hlen])]
  · intro b hc
    subst hc
    constructor
    · simp only [getIv]
      by_cases hlen : b.length = IV_BYTE_LEN
      · rw [if_neg (by simp [hlen])]
        simp [hlen]
      · rw [if_pos hlen]
        simp [hlen]
    · intro hlen
      simp only [getIv]
      rw [if_neg (by simp [hlen])]

/-- Witness: a 24-byte Buffer IV candidate fails with InvalidIvLength
(the spec's own example), and the no-candidate path yields the 12 drawn
bytes. -/
theorem getIv_spec_witness :
    getIv 0 (some (.buf (List.replicate 24 0))) = .error .invalidIvLength ∧
      getIv 7 none = .ok (randomBytes 7 IV_BYTE_LEN) :=
  ⟨((getIv_spec 0 (some (.buf (List.replicate 24 0)))).2.2
      (List.replicate 24 0) rfl).1.mpr (by decide),
    ((getIv_spec 7 none).1).1⟩

/-! ### C7 -/

theorem getIv_ignores_seed (s1 s2 : Nat) (c : BufOrStr) :
    getIv s1 (some c) = getIv s2 (some c) := by
  cases c with
  | str s =>
    by_cases hr : base64RegExTest s = true
    · simp [getIv, hr]
    · have hr2 : base64RegExTest s = false := by
        simpa using hr
      simp [getIv, hr2]
  | buf b => rfl

/-- C7: with a pinned IV the entropy source is never consulted — two
encryptions that differ only in the entropy stream produce identical
output (down to error behaviour); and decrypt is a function of the
instance configuration, envelope and associated data alone, so two
decryptions of identical inputs under identically-configured instances
agree. -/
theorem pinnedIv_determinism (prim : AeadPrim) (seed1 seed2 : Nat)
    (env : Option JSString) (v : JSString) (a : Option JSString)
    (key : Option BufOrStr) (ivc : BufOrStr) (u1 u2 : AesUtil) (e : JSString)
    (a2 : Option JSString) (hk : u1.key = u2.key)
    (hb : u1.binaryMode = u2.binaryMode)
    (he : u1.plaintextEncoding = u2.plaintextEncoding) :
    Part003.encryptValue prim seed1 env v a key (some ivc) =
        Part003.encryptValue prim seed2 env v a key (some ivc) ∧
      AesUtil.decrypt prim u1 e a2 = AesUtil.decrypt prim u2 e a2 := by
  constructor
  · simp only [Part003.encryptValue]
    rw [getIv_ignores_seed seed1 seed2 ivc]
  · have hu : u1 = u2 := by
      cases u1
      cases u2
      simp_all
    rw [hu]

/-- Witness: pinned 12-byte IV, two different entropy seeds, identical
envelopes; and a concrete decrypt agreeing with itself. -/
theorem pinnedIv_determinism_witness :
    Part003.encryptValue aeadModel 1 none [104] none (some (.buf keyBytesB))
        (some (.buf (List.replicate 12 97))) =
      Part003.encryptValue aeadModel 999 none [104] none (some (.buf keyBytesB))
        (some (.buf (List.replicate 12 97))) ∧
      AesUtil.decrypt aeadModel utilDefault [97] none =
        AesUtil.decrypt aeadModel utilDefault [97] none :=
  pinnedIv_determinism aeadModel 1 999 none [104] none (some (.buf keyBytesB))
    (.buf (List.replicate 12 97)) utilDefault utilDefault [97] none rfl rfl rfl

/-! ### C8 -/

/-- C8: in text mode the encoded envelope is exactly
base64(iv) . base64(authTag) . base64(ciphertext) — the three parts
independently Base64-encoded, joined by single periods in that fixed
order — and since the Base64 alphabet contains no period, the output
contains exactly two period characters. -/
theorem encodeOutput_text_format (u : AesUtil) (parts : CiphertextParts)
    (hbm : u.binaryMode = false) :
    u.encodeOutput parts =
        b64encode parts.iv ++ 46 :: (b64encode parts.authTag ++ 46 ::
          b64encode parts.ciphertext) ∧
      (u.encodeOutput parts).count 46 = 2 := by
  have hform : u.encodeOutput parts =
      b64encode parts.iv ++ 46 :: (b64encode parts.authTag ++ 46 ::
        b64encode parts.ciphertext) := by
    simp only [AesUtil.encodeOutput, hbm, Bool.false_eq_true, if_false,
      List.map_cons, List.map_nil, intercalate_three]
  refine ⟨hform, ?_⟩
  rw [hform]
  have hz : ∀ b : List Nat, (b64encode b).count 46 = 0 := fun b =>
    List.count_eq_zero.mpr fun hmem => b64encode_no_dot b 46 hmem rfl
  simp only [List.count_append, List.count_cons, hz]
  simp

/-- Witness: a concrete three-part envelope encodes to the dotted form
with exactly two periods. -/
theorem encodeOutput_text_format_witness :
    utilDefault.encodeOutput { ciphertext := [3], iv := [1], authTag := [2] } =
        b64encode [1] ++ 46 :: (b64encode [2] ++ 46 :: b64encode [3]) ∧
      (utilDefault.encodeOutput
        { ciphertext := [3], iv := [1], authTag := [2] }).count 46 = 2 :=
  encodeOutput_text_format utilDefault
    { ciphertext := [3], iv := [1], authTag := [2] } rfl

/-! ### C9 -/

theorem newAesUtil_emptyStr (env : Option JSString) :
    newAesUtil env (some (.key (.str []))) = newAesUtil env none := by
  simp only [newAesUtil]
  have h : getCipherKey env (some (.str [])) = getCipherKey env none :=
    getCipherKey_falsy env _ rfl
  rw [h]

/-- C9: the stateless wrappers are pure delegation: for any key argument
k (given or omitted) the wrapper equals constructing the transient
instance and calling the method, the construction failure propagating
unchanged; the transient instance always carries the default mode
configuration (binaryMode false, plaintextEncoding utf8).  (For a falsy
k — the empty string — both the wrapper and new AesUtil(k) fall back to
the configured key, so the equation still holds.) -/
theorem wrappers_delegate (prim : AeadPrim) (seed : Nat)
    (env : Option JSString) (v : JSString) (a : Option JSString)
    (k : BufOrStr) :
    (encryptValue prim seed env v a (some k) =
        match newAesUtil env (some (.key k)) with
        | .error e => .error e
        | .ok u => .ok (AesUtil.encrypt prim seed u v a)) ∧
      (encryptValue prim seed env v a none =
        match newAesUtil env none with
        | .error e => .error e
        | .ok u => .ok (AesUtil.encrypt prim seed u v a)) ∧
      (decryptValue prim env v a (some k) =
        match newAesUtil env (some (.key k)) with
        | .error e => .error e
        | .ok u => AesUtil.decrypt prim u v a) ∧
      (decryptValue prim env v a none =
        match newAesUtil env none with
        | .error e => .error e
        | .ok u => AesUtil.decrypt prim u v a) ∧
      (∀ u, newAesUtil env (some (.key k)) = .ok u →
        u.binaryMode = false ∧ u.plaintextEncoding = .utf8) ∧
      (∀ u, newAesUtil env none = .ok u →
        u.binaryMode = false ∧ u.plaintextEncoding = .utf8) := by
  have hmode : ∀ arg u, newAesUtil env arg = .ok u →
      (arg = none ∨ (∃ kk, arg = some (.key kk))) →
      u.binaryMode = false ∧ u.plaintextEncoding = .utf8 := by
    intro arg u hu harg
    rcases harg with rfl | ⟨kk, rfl⟩
    · simp only [newAesUtil] at hu
      cases hk : getCipherKey env none with
      | error e => rw [hk] at hu; simp [Except.map] at hu
      | ok kb =>
        rw [hk] at hu
        simp only [Except.map] at hu
        cases hu
        exact ⟨rfl, rfl⟩
    · simp only [newAesUtil] at hu
      cases hk : getCipherKey env (some kk) with
      | error e => rw [hk] at hu; simp [Except.map] at hu
      | ok kb =>
        rw [hk] at hu
        simp only [Except.map] at hu
        cases hu
        exact ⟨rfl, rfl⟩
  have hwrap : (if optTruthy (some k) then newAesUtil env ((some k).map .key)
      else newAesUtil env none) = newAesUtil env (some (.key k)) := by
    cases hkt : optTruthy (some k) with
    | true => simp
    | false =>
      simp only [Bool.false_eq_true, if_false, Option.map_some]
      rcases k with s | b
      · have hs : s = [] := by
          simpa [optTruthy, BufOrStr.truthy] using hkt
        subst hs
        exact (newAesUtil_emptyStr env).symm
      · simp [optTruthy, BufOrStr.truthy] at hkt
  refine ⟨?_, ?_, ?_, ?_, fun u hu => hmode _ u hu (.inr ⟨k, rfl⟩),
    fun u hu => hmode _ u hu (.inl rfl)⟩
  · simp only [encryptValue, hwrap]
  · simp only [encryptValue, optTruthy, Bool.false_eq_true, if_false]
  · simp only [decryptValue, hwrap]
  · simp only [decryptValue, optTruthy, Bool.false_eq_true, if_false]

/-- Witness: the wrapper with an explicit 32-byte key equals the
transient-instance call, and the transient instance has the default mode
configuration. -/
theorem wrappers_delegate_witness :
    (encryptValue aeadModel 3 none [104] none (some (.buf keyBytesB)) =
        match newAesUtil none (some (.key (.buf keyBytesB))) with
        | .error e => .error e
        | .ok u => .ok (AesUtil.encrypt aeadModel 3 u [104] none)) ∧
      (utilDefault.binaryMode = false ∧
        utilDefault.plaintextEncoding = .utf8) :=
  ⟨(wrappers_delegate aeadModel 3 none [104] none (.buf keyBytesB)).1,
    (wrappers_delegate aeadModel 3 none [104] none (.buf keyBytesB)).2.2.2.2.1
      utilDefault (by decide)⟩
